import Mathlib

/-!
Verification of the draconity backend of dragonfly: the wire frame codec
and body decoding (`client.py`), the TCP byte stream (`stream.py`), the
client lifecycle and transaction-id counter (`client.py`), and the
engine's dirty/flush grammar-state batching and message dispatch
(`engine.py`).  Byte strings are modelled as `List Nat` (each entry one
byte), Python dictionaries as ordered association lists, and fallible
Python code as `Option`/`Except` values.
-/

namespace Draconity

/-! ## Wire framing: the 8-byte header (`_DRACONITY_HEADER_STRUCT = struct.Struct(">II")`) -/

/-- Big-endian 4-byte encoding of an unsigned 32-bit value (one `I` of
`struct.pack(">II", ...)`). -/
def u32BE (n : Nat) : List Nat :=
  [n / 16777216 % 256, n / 65536 % 256, n / 256 % 256, n % 256]

/-- Value of four big-endian bytes. -/
def beNat (b0 b1 b2 b3 : Nat) : Nat :=
  16777216 * b0 + 65536 * b1 + 256 * b2 + b3

/-- Models `_DRACONITY_HEADER_STRUCT.pack(tid, size)`: two unsigned 32-bit
big-endian integers. -/
def headerPack (tid size : Nat) : List Nat :=
  u32BE tid ++ u32BE size

/-- Models `_DRACONITY_HEADER_STRUCT.unpack` as used by
`DraconityClient._receive_header`: succeeds on exactly 8 bytes, yielding
the tid and the body length. -/
def headerUnpack : List Nat → Option (Nat × Nat)
  | [a0, a1, a2, a3, b0, b1, b2, b3] => some (beNat a0 a1 a2 a3, beNat b0 b1 b2 b3)
  | _ => none

/-! ## The BSON message body

The bodies on this wire are BSON documents (`bson.BSON.encode` /
`bson.decode_all` in `client.py`).  The fragment exercised by this
protocol and its tests is modelled: an ordered mapping from cstring keys
to string values, both given as byte lists. -/

/-- A document: ordered key/value pairs, keys and values as byte lists. -/
abbrev Doc := List (List Nat × List Nat)

/-- Little-endian 4-byte encoding of an unsigned 32-bit value (BSON int32). -/
def u32LE (n : Nat) : List Nat :=
  [n % 256, n / 256 % 256, n / 65536 % 256, n / 16777216 % 256]

/-- Value of four little-endian bytes. -/
def leNat (b0 b1 b2 b3 : Nat) : Nat :=
  b0 + 256 * b1 + 65536 * b2 + 16777216 * b3

/-- One encoded BSON element: type byte 0x02 (UTF-8 string), the cstring
key, then the length-prefixed value (length counts the trailing NUL). -/
def encodeElem (kv : List Nat × List Nat) : List Nat :=
  2 :: (kv.1 ++ 0 :: (u32LE (kv.2.length + 1) ++ kv.2 ++ [0]))

/-- The encoded element region of a document. -/
def encodeElems (d : Doc) : List Nat :=
  (d.map encodeElem).flatten

/-- Models `bson.BSON.encode`: int32 total length (4 length bytes +
elements + 1 terminator), the elements, and a NUL terminator. -/
def bsonEncode (d : Doc) : List Nat :=
  u32LE ((encodeElems d).length + 5) ++ (encodeElems d ++ [0])

/-- Split a cstring off the front of a buffer: the bytes before the first
NUL, and the remainder after it. -/
def splitCString : List Nat → Option (List Nat × List Nat)
  | [] => none
  | b :: rest =>
    if b = 0 then some ([], rest)
    else (splitCString rest).map fun p => (b :: p.1, p.2)

/-- Decoder for the element region of a document (everything between the
length prefix and the end of the document, including the final NUL).
The fuel argument only bounds the recursion; one unit is spent per
element, so any fuel above the element count is enough. -/
def decodeElemsF : Nat → List Nat → Option Doc
  | 0, _ => none
  | _ + 1, [] => none
  | fuel + 1, t :: rest =>
    if t = 0 then (if rest.isEmpty then some [] else none)
    else if t = 2 then
      match splitCString rest with
      | none => none
      | some (key, rest2) =>
        match rest2 with
        | s0 :: s1 :: s2 :: s3 :: rest3 =>
          let len := leNat s0 s1 s2 s3
          match rest3.drop (len - 1) with
          | z :: rest4 =>
            if z = 0 then
              (decodeElemsF fuel rest4).map fun d => (key, rest3.take (len - 1)) :: d
            else none
          | [] => none
        | _ => none
    else none

/-- Decode one document off the front of a buffer: read the int32 total
length, check it is available, decode the element region, and return the
document together with the unconsumed remainder of the buffer. -/
def decodeDoc : List Nat → Option (Doc × List Nat)
  | l0 :: l1 :: l2 :: l3 :: rest =>
    let total := leNat l0 l1 l2 l3
    if 5 ≤ total ∧ total - 4 ≤ rest.length then
      let content := rest.take (total - 4)
      match decodeElemsF (content.length + 1) content with
      | some d => some (d, rest.drop (total - 4))
      | none => none
    else none
  | _ => none

/-- Models `bson.decode_all`: decode a buffer as a concatenation of zero
or more complete documents (fuel-indexed; one unit per document). -/
def decodeAllF : Nat → List Nat → Option (List Doc)
  | 0, _ => none
  | fuel + 1, b =>
    if b.isEmpty then some []
    else
      match decodeDoc b with
      | some (d, rest) => (decodeAllF fuel rest).map fun ds => d :: ds
      | none => none

/-- Models `bson.decode_all` (each document is at least five bytes, so
this fuel bound never runs out). -/
def decode_all (b : List Nat) : Option (List Doc) :=
  decodeAllF (b.length + 1) b

/-- Models `DraconityClient._receive_body` once the raw body bytes are in
hand: `bson.decode_all(bson_body)[0]`.  `none` stands for the raised
exception — either `decode_all` failing on a malformed buffer, or the
IndexError from `[0]` on an empty result. -/
def receive_body (body : List Nat) : Option Doc :=
  (decode_all body).bind List.head?

/-- Well-formedness of one document entry: the key is a NUL-free byte
string, the value a byte string whose BSON length field fits 32 bits. -/
def entryWF (kv : List Nat × List Nat) : Bool :=
  kv.1.all (fun b => decide (b ≠ 0) && decide (b < 256)) &&
    kv.2.all (fun b => decide (b < 256)) && decide (kv.2.length + 1 < 4294967296)

/-- Well-formedness of a document: every entry well formed, and the
encoded size small enough for the BSON length prefix. -/
def docWF (d : Doc) : Bool :=
  d.all entryWF && decide ((bsonEncode d).length < 4294967296)

/-- Models `DraconityClient._prep_message`: BSON-encode the message, draw
the next tid, pack the header over `(tid, len(body))` and prepend it.
`none` stands for the struct.error raised when a value does not fit the
`">II"` format. -/
def prep_message (tid : Nat) (msg : Doc) : Option (Nat × List Nat) :=
  let body := bsonEncode msg
  if tid < 4294967296 ∧ body.length < 4294967296 then
    some (tid, headerPack tid body.length ++ body)
  else none

/-! ## `TCPStream.recv` (stream.py)

The kernel side of the socket is modelled as the queue of bytes already
buffered for this connection: `socket.recv(req)` returns up to `req` of
them.  `TCPStream.recv` then loops, asking `_recv_chunk` for
`max(size - received, 2048)` bytes per iteration, until at least `size`
bytes have accumulated. -/

/-- Models `socket.recv(req)` on a connection whose pending buffered data
is `buf`: up to `req` bytes are returned, the rest stay buffered. -/
def socketRecv (buf : List Nat) (req : Nat) : List Nat × List Nat :=
  (buf.take req, buf.drop req)

/-- The accumulation loop of `TCPStream.recv`.  Each iteration requests
`max(size - received, 2048)` bytes; an empty chunk is the zero-length
read on which `_recv_chunk` raises StreamError (`none`).  On exit the
chunks are combined with `reduce`, which raises on an empty sequence.
The fuel only bounds the recursion: every iteration consumes at least one
buffered byte, so `buf.length + 1` units always suffice. -/
def tcpRecvF : Nat → Nat → Nat → List (List Nat) → List Nat → Option (List Nat)
  | 0, _, _, _, _ => none
  | fuel + 1, size, received, data, buf =>
    if received < size then
      let req := max (size - received) 2048
      let chunk := (socketRecv buf req).1
      if chunk.isEmpty then none
      else tcpRecvF fuel size (received + chunk.length) (data ++ [chunk]) (socketRecv buf req).2
    else
      match data with
      | [] => none
      | chunks => some chunks.flatten

/-- Models `TCPStream.recv(size)` against a connection with `buf` bytes
buffered. -/
def tcpRecv (size : Nat) (buf : List Nat) : Option (List Nat) :=
  tcpRecvF (buf.length + 1) size 0 [] buf

/-! ## The receive loop of `DraconityClient` (client.py `_recv_messages`)

The loop's observable behaviour is its sequence of callback invocations.
`_handle_message`, `_handle_error` and `_handle_disconnect` all swallow
exceptions raised by the registered callbacks, so an invocation is an
event and never alters control flow. -/

/-- One callback invocation made by the receive loop. -/
inductive ClientEvent where
  | message (tid : Nat) (doc : Doc)
  | error
  | disconnect
deriving DecidableEq, Repr

/-- One outcome of `_pump_one_message`: a decoded `(tid, message)` pair,
or an exception raised while reading or decoding.  The `while True` loop
can only end through such an exception. -/
inductive PumpResult where
  | msg (tid : Nat) (doc : Doc)
  | raise
deriving DecidableEq, Repr

/-- Models `DraconityClient._recv_messages` as the trace of callback
invocations it performs while consuming pump outcomes: each message is
delivered to `on_message`; the first exception ends the loop, invoking
`on_error` unless `_deliberately_closed` was set, then (after
`_safely_close_stream`) always invoking `on_disconnect`. -/
def recv_messages : List PumpResult → Bool → List ClientEvent
  | PumpResult.msg t d :: rest, closed => ClientEvent.message t d :: recv_messages rest closed
  | PumpResult.raise :: _, closed =>
    (if closed then [] else [ClientEvent.error]) ++ [ClientEvent.disconnect]
  | [], _ => []

/-! ## Transaction ids across the client lifecycle (client.py) -/

/-- The per-instance state relevant to tid assignment: the next value of
`itertools.count(1)` and whether `_stream` is currently set. -/
structure ClientState where
  tidNext : Nat
  connected : Bool
deriving DecidableEq, Repr

/-- A freshly constructed client: `_tid_counter = itertools.count(1)`,
no stream. -/
def initClient : ClientState := { tidNext := 1, connected := false }

/-- The client calls that can touch the counter or the stream. -/
inductive ClientOp where
  | connect
  | close
  | send
deriving DecidableEq, Repr

/-- One client call.  `connect` on an already connected client raises and
changes nothing; `close` drops the stream; `send` always consumes a tid
inside `_prep_message` before touching the stream, and returns it only if
the stream write goes through (`none` models the StreamError raised when
the stream is absent). -/
def stepClient : ClientState → ClientOp → ClientState × Option Nat
  | s, ClientOp.connect => (if s.connected then s else { s with connected := true }, none)
  | s, ClientOp.close => ({ s with connected := false }, none)
  | s, ClientOp.send =>
    ({ s with tidNext := s.tidNext + 1 }, if s.connected then some s.tidNext else none)

/-- Run a sequence of client calls, collecting the tids returned by the
`send` calls, in order. -/
def runClient : ClientState → List ClientOp → ClientState × List Nat
  | s, [] => (s, [])
  | s, op :: ops =>
    let r := stepClient s op
    let rest := runClient r.1 ops
    (rest.1, r.2.toList ++ rest.2)

/-- The number of `send` calls in a call sequence. -/
def countSends (ops : List ClientOp) : Nat :=
  (ops.filter (· == ClientOp.send)).length

/-- Whether every `send` call in `ops`, starting from state `s`, happens
while the client is connected (so none of them raises). -/
def sendsWhileConnected : ClientState → List ClientOp → Bool
  | _, [] => true
  | s, op :: ops =>
    (op != ClientOp.send || s.connected) && sendsWhileConnected (stepClient s op).1 ops

/-! ## `DraconityClient.close` on a never-connected client (client.py) -/

/-- A Python-level exception relevant to the embedded fragments. -/
inductive PyError where
  | attributeError
  | keyError
deriving DecidableEq, Repr

/-- The object-attribute state of a `DraconityClient` that matters to
`close`: `_stream` and `_receiver` are object references or `None`, and
`_deliberately_closed` starts as `None`. -/
structure PyClient where
  stream : Option Unit
  receiver : Option Unit
  deliberatelyClosed : Option Bool
deriving DecidableEq, Repr

/-- The attributes set by `DraconityClient.__init__`. -/
def initPyClient : PyClient := { stream := none, receiver := none, deliberatelyClosed := none }

/-- Models `DraconityClient._safely_close_stream`: every exception from
`self._stream.close()` — including the AttributeError when `_stream` is
`None` — is swallowed, and `_stream` is then cleared. -/
def safely_close_stream (c : PyClient) : PyClient :=
  { c with stream := none }

/-- Models `DraconityClient.close`: set `_deliberately_closed`, close the
stream best-effort, then call `self._receiver.join()` — an attribute
access that is not guarded against `_receiver` being `None`. -/
def close (c : PyClient) : Except PyError PyClient :=
  let c1 := { c with deliberatelyClosed := some true }
  let c2 := safely_close_stream c1
  match c2.receiver with
  | none => Except.error PyError.attributeError
  | some _ => Except.ok c2

/-! ## Grammar state and dirty/flush batching (engine.py)

Rule and list names are strings as in the source; the compiled grammar
blob is an opaque byte list. -/

/-- A rule of a loaded grammar, with its current activity and export
flags (the flags live on the rule objects and are consulted afresh by
`GrammarWrapper.update_state`). -/
structure Rule where
  name : String
  active : Bool
  exported : Bool
deriving DecidableEq, Repr

/-- A dynamic list of a loaded grammar with its current items. -/
structure GrammarList where
  name : String
  items : List String
deriving DecidableEq, Repr

/-- The parts of a grammar object that `update_state` reads. -/
structure Grammar where
  name : String
  rules : List Rule
  lists : List GrammarList
deriving DecidableEq, Repr

/-- Modelled from the spec: the outbound "set" document built by
`prep_grammar_set` (missing from the sources; only its callers are
present), carrying `set-grammar-state(name, compiled_blob,
active_rule_names, lists, exclusive)`. -/
structure SetMessage where
  name : String
  blob : List Nat
  active_rules : List String
  lists : List (String × List String)
  exclusive : Bool
deriving DecidableEq, Repr

/-- Modelled from the spec: `prep_grammar_set(name, compiled_grammar)`
packages the grammar name and the compiled blob; the mutable fields are
filled in by `update_state` before the first send. -/
def prep_grammar_set (name : String) (blob : List Nat) : SetMessage :=
  { name := name, blob := blob, active_rules := [], lists := [], exclusive := false }

/-- The engine-side wrapper of one loaded grammar (`GrammarWrapper`). -/
structure GrammarWrapper where
  grammar : Grammar
  state : SetMessage
  exclusive : Bool
  dirty : Bool
deriving DecidableEq, Repr

/-- Models `GrammarWrapper.__init__(grammar, state, ...)`: exclusivity
off, and `dirty = True` so the first flush point pushes full state. -/
def mkGrammarWrapper (g : Grammar) (state : SetMessage) : GrammarWrapper :=
  { grammar := g, state := state, exclusive := false, dirty := true }

/-- The freshly derived active rule names:
`[r.name for r in self.grammar._rules if r.active and r.exported]`. -/
def activeRuleNames (g : Grammar) : List String :=
  (g.rules.filter fun r => r.active && r.exported).map Rule.name

/-- The freshly derived list contents:
`{lst.name: lst.get_list_items() for lst in self.grammar.lists}`. -/
def listContents (g : Grammar) : List (String × List String) :=
  g.lists.map fun l => (l.name, l.items)

/-- The dictionary update performed by `update_state` on the stored "set"
message: active rules, lists and exclusivity recomputed from the
wrapper's current grammar. -/
def recompute (w : GrammarWrapper) : SetMessage :=
  { w.state with
    active_rules := activeRuleNames w.grammar
    lists := listContents w.grammar
    exclusive := w.exclusive }

/-- Models `GrammarWrapper.update_state`: when dirty, refresh the stored
state and report `changed = True`; always clear the dirty flag; return
the (possibly refreshed) state and the changed flag. -/
def update_state (w : GrammarWrapper) : GrammarWrapper × SetMessage × Bool :=
  if w.dirty then
    ({ w with state := recompute w, dirty := false }, recompute w, true)
  else
    ({ w with dirty := false }, w.state, false)

/-- One iteration of the flush loop in `update_all_grammars`:
`state, changed = wrapper.update_state(); if changed: self.queue_send(state)`.
Returns the updated wrapper and the queued messages (one or none). -/
def flushWrapper (w : GrammarWrapper) : GrammarWrapper × List SetMessage :=
  let r := update_state w
  (r.1, if r.2.2 then [r.2.1] else [])

/-- The flush pass of `update_all_grammars` over all loaded grammars, in
load order, collecting the queued "set" messages in order. -/
def flushAll : List GrammarWrapper → List GrammarWrapper × List SetMessage
  | [] => ([], [])
  | w :: ws =>
    let r := flushWrapper w
    let rs := flushAll ws
    (r.1 :: rs.1, r.2 ++ rs.2)

/-- Mutation of a rule's activity flag on the grammar object itself (done
by the rule, outside this backend, before the engine method runs). -/
def set_rule_activity (g : Grammar) (rn : String) (b : Bool) : Grammar :=
  { g with rules := g.rules.map fun r => if r.name == rn then { r with active := b } else r }

/-- Mutation of a dynamic list's items on the grammar object itself. -/
def set_list_items (g : Grammar) (ln : String) (items : List String) : Grammar :=
  { g with lists := g.lists.map fun l => if l.name == ln then { l with items := items } else l }

/-- Models `DraconityEngine.activate_rule` / `deactivate_rule` on a
loaded grammar, together with the rule's own flag change: the engine
method sends nothing and only sets `wrapper.dirty = True`. -/
def set_rule_active (w : GrammarWrapper) (rn : String) (b : Bool) : GrammarWrapper :=
  { w with grammar := set_rule_activity w.grammar rn b, dirty := true }

/-- Models `DraconityEngine.update_list` on a loaded grammar, together
with the list's own content change: sends nothing, only sets dirty. -/
def update_list (w : GrammarWrapper) (ln : String) (items : List String) : GrammarWrapper :=
  { w with grammar := set_list_items w.grammar ln items, dirty := true }

/-- Models `DraconityEngine.set_exclusiveness` on a loaded grammar: only
an actual change of the flag marks the wrapper dirty. -/
def set_exclusiveness (w : GrammarWrapper) (e : Bool) : GrammarWrapper :=
  if w.exclusive != e then { w with exclusive := e, dirty := true } else w

/-- A small concrete grammar used to exercise the engine embedding. -/
def sampleGrammar : Grammar :=
  { name := "g"
    rules := [{ name := "r1", active := true, exported := true },
              { name := "r2", active := false, exported := true }]
    lists := [{ name := "l", items := ["a"] }] }

/-- The wrapper of `sampleGrammar` as built at load time. -/
def sampleWrapper : GrammarWrapper :=
  mkGrammarWrapper sampleGrammar (prep_grammar_set "g" [1, 2, 3])

/-! ## Engine dispatch (engine.py `_handle_message`) -/

/-- An outbound document queued by the paused-topic handler. -/
inductive Outbound where
  | set (m : SetMessage)
  | unpause (token : String)
deriving DecidableEq, Repr

/-- Modelled from the spec: `prep_unpause(token)` (missing from the
sources; only its caller is present) builds the acknowledge-pause
message carrying the pause's token. -/
def prep_unpause (token : String) : Outbound := Outbound.unpause token

/-- Models `DraconityEngine.update_all_grammars`: first every loaded
grammar reacts to the foreground window (`grammar.process_begin`, an
external hook that may mutate rule activity, lists, exclusivity and the
dirty flag — modelled as an arbitrary wrapper transformation), then the
flush pass queues one "set" message per dirty grammar. -/
def update_all_grammars (hook : GrammarWrapper → GrammarWrapper) (ws : List GrammarWrapper) :
    List GrammarWrapper × List SetMessage :=
  flushAll (ws.map hook)

/-- Models the `topic == "paused"` branch of `_handle_message`:
`self.update_all_grammars()` then
`self.queue_send(prep_unpause(msg["token"]))`, with the queued outbound
messages collected in queue order. -/
def handle_paused (hook : GrammarWrapper → GrammarWrapper) (ws : List GrammarWrapper)
    (token : String) : List GrammarWrapper × List Outbound :=
  let r := update_all_grammars hook ws
  (r.1, r.2.map Outbound.set ++ [prep_unpause token])

/-- Models `DraconityEngine._get_grammar_wrapper` on a name: a lookup in
the `_grammar_wrappers` dict (here the dict's entries in insertion
order). -/
def get_grammar_wrapper (ws : List GrammarWrapper) (name : String) : Option GrammarWrapper :=
  ws.find? fun w => w.grammar.name == name

/-- Sets `wrapper.dirty = True` on the wrapper stored under `name`, if
any (the dict holds at most one wrapper per name). -/
def markDirty : List GrammarWrapper → String → List GrammarWrapper
  | [], _ => []
  | w :: ws, n =>
    if w.grammar.name == n then { w with dirty := true } :: ws
    else w :: markDirty ws n

/-- Models the `topic == "g.set"` branch of `_handle_message`: a result
pushed for grammar `name` with `success == False` re-marks that grammar's
wrapper dirty; the frame's tid is not consulted; a success, or an unknown
name, changes nothing; the surrounding try/except means the handler
always returns normally. -/
def handle_gset (ws : List GrammarWrapper) (tid : Nat) (name : String) (success : Bool) :
    List GrammarWrapper :=
  if success then ws else markDirty ws name

/-! ## `format_message` (engine.py)

Python dictionaries are mutable objects: the top-level message and its
nested command document live in a heap of dictionaries, values are
primitives or references into that heap, and `msg.copy()` is a shallow
copy — a fresh top-level dictionary whose reference values still point at
the same nested dictionaries. -/

/-- A Python value stored in a message dictionary. -/
inductive PyVal where
  | str (s : String)
  | bytes (b : List Nat)
  | ref (r : Nat)
deriving DecidableEq, Repr

/-- A Python dictionary: ordered key/value pairs. -/
abbrev PyDict := List (String × PyVal)

/-- The dictionary heap; an address is an index. -/
abbrev Heap := List PyDict

/-- Dictionary lookup (`k in d` / `d[k]`). -/
def dictGet (d : PyDict) (k : String) : Option PyVal :=
  (d.find? fun p => p.1 == k).map Prod.snd

/-- Dictionary assignment `d[k] = v`: replace in place, or append. -/
def dictSet : PyDict → String → PyVal → PyDict
  | [], k, v => [(k, v)]
  | p :: rest, k, v => if p.1 == k then (k, v) :: rest else p :: dictSet rest k v

/-- Models `format_message(msg)` for the message dictionary stored at
heap address `rm`.  `msg_str = msg.copy()` is shallow, so when the
`"cmd"` entry is a reference to a nested dictionary whose own `"cmd"` is
`"g.set"`, the assignments to its `"data"` and `"lists"` entries mutate
that shared nested dictionary in the heap; the `"wav"` entry, by
contrast, is reassigned only in the copied top-level dictionary.  The
inner `msg_str["cmd"]["cmd"]` lookup is unguarded, so a nested
dictionary without a `"cmd"` key raises KeyError. -/
def format_message (h : Heap) (rm : Nat) : Except PyError (Heap × PyDict) :=
  let msg := h.getD rm []
  let heapStep : Except PyError Heap :=
    match dictGet msg "cmd" with
    | some (PyVal.ref r) =>
      match dictGet (h.getD r []) "cmd" with
      | none => Except.error PyError.keyError
      | some c =>
        if c == PyVal.str "g.set" then
          Except.ok (h.set r
            (dictSet (dictSet (h.getD r []) "data" (PyVal.str "...")) "lists" (PyVal.str "...")))
        else Except.ok h
    | _ => Except.ok h
  match heapStep with
  | Except.error e => Except.error e
  | Except.ok h2 =>
    let out := if (dictGet msg "wav").isSome then dictSet msg "wav" (PyVal.str "...") else msg
    Except.ok (h2, out)

/-! ## Lemmas: header and body codecs -/

theorem beNat_u32BE (n : Nat) (h : n < 4294967296) :
    beNat (n / 16777216 % 256) (n / 65536 % 256) (n / 256 % 256) (n % 256) = n := by
  unfold beNat
  omega

theorem leNat_u32LE (n : Nat) (h : n < 4294967296) :
    leNat (n % 256) (n / 256 % 256) (n / 65536 % 256) (n / 16777216 % 256) = n := by
  unfold leNat
  omega

theorem headerPack_length (t n : Nat) : (headerPack t n).length = 8 := by
  simp [headerPack, u32BE]

theorem headerUnpack_headerPack (t n : Nat) (ht : t < 4294967296) (hn : n < 4294967296) :
    headerUnpack (headerPack t n) = some (t, n) := by
  simp [headerPack, u32BE, headerUnpack, beNat_u32BE t ht, beNat_u32BE n hn]

theorem splitCString_append (k r : List Nat) (hk : ∀ b ∈ k, b ≠ 0) :
    splitCString (k ++ 0 :: r) = some (k, r) := by
  induction k with
  | nil => simp [splitCString]
  | cons a k ih =>
    have ha : a ≠ 0 := hk a (by simp)
    simp [splitCString, ha, ih fun b hb => hk b (by simp [hb])]

theorem encodeElems_nil : encodeElems [] = [] := by
  simp [encodeElems]

theorem encodeElems_cons (kv : List Nat × List Nat) (tl : Doc) :
    encodeElems (kv :: tl) = encodeElem kv ++ encodeElems tl := by
  simp [encodeElems]

theorem encodeElems_length_ge (d : Doc) : d.length ≤ (encodeElems d).length := by
  induction d with
  | nil => simp [encodeElems]
  | cons kv tl ih =>
    have h1 : 1 ≤ (encodeElem kv).length := by
      simp [encodeElem]
    rw [encodeElems_cons, List.length_append, List.length_cons]
    omega

theorem bsonEncode_length (d : Doc) : (bsonEncode d).length = (encodeElems d).length + 5 := by
  simp [bsonEncode, u32LE]

theorem decodeElemsF_encode (fuel : Nat) (d : Doc) (hwf : d.all entryWF = true)
    (hlen : d.length < fuel) :
    decodeElemsF fuel (encodeElems d ++ [0]) = some d := by
  induction fuel generalizing d with
  | zero => omega
  | succ fuel ih =>
    match d with
    | [] => simp [encodeElems, decodeElemsF]
    | (k, v) :: tl =>
      have hwf1 : entryWF (k, v) = true ∧ tl.all entryWF = true := by
        rw [List.all_cons, Bool.and_eq_true] at hwf
        exact hwf
      have hk : ∀ b ∈ k, b ≠ 0 := by
        have h1 := hwf1.1
        simp only [entryWF, Bool.and_eq_true, List.all_eq_true, decide_eq_true_eq] at h1
        intro b hb
        exact (h1.1.1 b hb).1
      have hv : v.length + 1 < 4294967296 := by
        have h1 := hwf1.1
        simp only [entryWF, Bool.and_eq_true, List.all_eq_true, decide_eq_true_eq] at h1
        exact h1.2
      have henc : encodeElems ((k, v) :: tl) ++ [0]
          = 2 :: (k ++ 0 :: (u32LE (v.length + 1) ++ (v ++ 0 :: (encodeElems tl ++ [0])))) := by
        simp [encodeElems, encodeElem]
      rw [henc]
      simp only [decodeElemsF, u32LE, List.cons_append, List.nil_append,
        splitCString_append k _ hk]
      have hrec : decodeElemsF fuel (encodeElems tl ++ [0]) = some tl := by
        have : tl.length < fuel := by
          simp at hlen
          omega
        exact ih tl hwf1.2 this
      simp only [leNat_u32LE (v.length + 1) hv, Nat.add_sub_cancel,
        List.drop_left, List.take_left, hrec]
      simp

theorem decodeDoc_encode (d : Doc) (rest : List Nat) (hwf : docWF d = true) :
    decodeDoc (bsonEncode d ++ rest) = some (d, rest) := by
  have hwf2 : d.all entryWF = true ∧ (bsonEncode d).length < 4294967296 := by
    rw [docWF, Bool.and_eq_true, decide_eq_true_eq] at hwf
    exact hwf
  have hall : d.all entryWF = true := hwf2.1
  have hlt : (encodeElems d).length + 5 < 4294967296 := by
    have h2 := hwf2.2
    rw [bsonEncode_length] at h2
    exact h2
  have hshape : bsonEncode d ++ rest
      = ((encodeElems d).length + 5) % 256 :: (((encodeElems d).length + 5) / 256 % 256 ::
        (((encodeElems d).length + 5) / 65536 % 256 ::
        (((encodeElems d).length + 5) / 16777216 % 256 ::
        ((encodeElems d ++ [0]) ++ rest)))) := by
    simp [bsonEncode, u32LE]
  rw [hshape]
  simp only [decodeDoc, leNat_u32LE _ hlt]
  have hlenfull : ((encodeElems d ++ [0]) ++ rest).length
      = (encodeElems d).length + 1 + rest.length := by
    simp only [List.length_append, List.length_cons, List.length_nil]
  have hcond : 5 ≤ (encodeElems d).length + 5
      ∧ (encodeElems d).length + 5 - 4 ≤ ((encodeElems d ++ [0]) ++ rest).length := by
    constructor
    · omega
    · rw [hlenfull]; omega
  rw [if_pos hcond]
  have htake : ((encodeElems d ++ [0]) ++ rest).take ((encodeElems d).length + 5 - 4)
      = encodeElems d ++ [0] := by
    apply List.take_left'
    simp only [List.length_append, List.length_cons, List.length_nil]
    omega
  have hdrop : ((encodeElems d ++ [0]) ++ rest).drop ((encodeElems d).length + 5 - 4)
      = rest := by
    apply List.drop_left'
    simp only [List.length_append, List.length_cons, List.length_nil]
    omega
  rw [htake, hdrop]
  have hfuel : d.length < (encodeElems d ++ [0]).length + 1 := by
    have h3 := encodeElems_length_ge d
    simp only [List.length_append, List.length_cons, List.length_nil]
    omega
  rw [decodeElemsF_encode _ d hall hfuel]

theorem flatten_encode_length_ge (ds : List Doc) :
    ds.length ≤ ((ds.map bsonEncode).flatten).length := by
  induction ds with
  | nil => simp
  | cons d tl ih =>
    simp only [List.map_cons, List.flatten_cons, List.length_append, List.length_cons]
    have := bsonEncode_length d
    omega

theorem bsonEncode_ne_nil (d : Doc) : bsonEncode d ≠ [] := by
  simp [bsonEncode, u32LE]

theorem decodeAllF_encode (fuel : Nat) (ds : List Doc) (hwf : ds.all docWF = true)
    (hlen : ds.length < fuel) :
    decodeAllF fuel ((ds.map bsonEncode).flatten) = some ds := by
  induction fuel generalizing ds with
  | zero => omega
  | succ fuel ih =>
    match ds with
    | [] => simp [decodeAllF]
    | d :: tl =>
      have hwf1 : docWF d = true ∧ tl.all docWF = true := by simpa using hwf
      have hne : ¬(bsonEncode d ++ (tl.map bsonEncode).flatten).isEmpty = true := by
        simp [bsonEncode, u32LE]
      have hrec : decodeAllF fuel ((tl.map bsonEncode).flatten) = some tl := by
        have : tl.length < fuel := by
          simp at hlen
          omega
        exact ih tl hwf1.2 this
      simp only [List.map_cons, List.flatten_cons, decodeAllF, hne, if_false,
        decodeDoc_encode d _ hwf1.1, hrec]
      simp

theorem decode_all_encode (ds : List Doc) (hwf : ds.all docWF = true) :
    decode_all ((ds.map bsonEncode).flatten) = some ds := by
  have := flatten_encode_length_ge ds
  exact decodeAllF_encode _ ds hwf (by omega)

/-! ## Claim theorems: framing and streams -/

/-- C2: for every document `d` and every transaction id `t` the encoder
accepts, `_prep_message` produces the frame whose first 8 bytes unpack to
`t` together with the exact byte length of the remaining body, and
feeding that body back through `_receive_body`'s decode yields `d`
exactly. -/
theorem frame_roundtrip (t : Nat) (d : Doc) (ht : t < 4294967296) (hd : docWF d = true) :
    ∃ frame, prep_message t d = some (t, frame)
      ∧ headerUnpack (frame.take 8) = some (t, (frame.drop 8).length)
      ∧ receive_body (frame.drop 8) = some d := by
  have hd2 : d.all entryWF = true ∧ (bsonEncode d).length < 4294967296 := by
    have h := hd
    rw [docWF, Bool.and_eq_true, decide_eq_true_eq] at h
    exact h
  refine ⟨headerPack t (bsonEncode d).length ++ bsonEncode d, ?_, ?_, ?_⟩
  · simp [prep_message, ht, hd2.2]
  · rw [List.take_left' (headerPack_length t _), List.drop_left' (headerPack_length t _)]
    exact headerUnpack_headerPack t _ ht hd2.2
  · rw [List.drop_left' (headerPack_length t _)]
    have h1 : ([d].map bsonEncode).flatten = bsonEncode d := by simp
    have h2 : decode_all (bsonEncode d) = some [d] := by
      rw [← h1]
      exact decode_all_encode [d] (by simp [hd])
    simp [receive_body, h2]

/-- Witness for `frame_roundtrip` at tid 3 and a one-entry document. -/
theorem frame_roundtrip_witness :
    (3 < 4294967296 ∧ docWF [([107], [118])] = true)
    ∧ ∃ frame, prep_message 3 [([107], [118])] = some (3, frame)
      ∧ headerUnpack (frame.take 8) = some (3, (frame.drop 8).length)
      ∧ receive_body (frame.drop 8) = some [([107], [118])] :=
  ⟨⟨by decide, by decide⟩, frame_roundtrip 3 [([107], [118])] (by decide) (by decide)⟩

/-- C8 counterexample: a body made of two complete BSON documents is not
treated as an error — `bson.decode_all(...)[0]` accepts it and silently
discards the second document, so the receive loop carries on. -/
theorem receive_body_trailing_doc_not_error :
    receive_body (bsonEncode [([107], [49])] ++ bsonEncode [([107], [50])])
      = some [([107], [49])] := by decide

/-- C8 amended: a received body that decodes as one or more complete
documents yields the first document and silently discards the rest;
only a body on which `decode_all` fails (or an empty result, raising
IndexError on `[0]`) raises and is fatal to the connection. -/
theorem receive_body_first_doc (d : Doc) (ds : List Doc) (hd : docWF d = true)
    (hds : ds.all docWF = true) :
    receive_body (((d :: ds).map bsonEncode).flatten) = some d
    ∧ receive_body [] = none
    ∧ ∀ body, decode_all body = none → receive_body body = none := by
  refine ⟨?_, rfl, ?_⟩
  · have h2 : decode_all (((d :: ds).map bsonEncode).flatten) = some (d :: ds) :=
      decode_all_encode (d :: ds)
        (by rw [List.all_cons, Bool.and_eq_true]; exact ⟨hd, hds⟩)
    rw [show ((d :: ds).map bsonEncode).flatten
        = bsonEncode d ++ (ds.map bsonEncode).flatten from by simp] at h2
    simp [receive_body, h2]
  · intro body hb
    simp [receive_body, hb]

/-- Witness for `receive_body_first_doc` on two concrete documents. -/
theorem receive_body_first_doc_witness :
    (docWF [([107], [49])] = true ∧ ([[([108], [50])]] : List Doc).all docWF = true)
    ∧ (receive_body ((([([107], [49])] :: [[([108], [50])]]).map bsonEncode).flatten)
        = some [([107], [49])]
      ∧ receive_body [] = none
      ∧ ∀ body, decode_all body = none → receive_body body = none) :=
  ⟨⟨by decide, by decide⟩, receive_body_first_doc _ _ (by decide) (by decide)⟩

/-- C1: `TCPStream.recv(8)` on a connection with 14 bytes already
buffered returns all 14 bytes, not 8 — the loop requests
`max(size - received, 2048)` bytes per chunk, so a single kernel read
can overshoot the requested size (the repository's own test
`test__recv_with_buffered_send` asserts the length must be 8). -/
theorem tcp_recv_overreads :
    tcpRecv 8 (List.replicate 14 49) = some (List.replicate 14 49)
    ∧ (List.replicate 14 49).length = 14 := by decide

/-- C9: `close()` on a client that was never connected raises
AttributeError from the unguarded `self._receiver.join()`, although the
method's own docstring promises it does nothing when not connected. -/
theorem close_never_connected_raises :
    close initPyClient = Except.error PyError.attributeError := rfl

/-! ## Claim theorems: the receive loop's callback discipline -/

theorem recv_messages_shape (msgs : List (Nat × Doc)) (rest : List PumpResult)
    (closed : Bool) :
    recv_messages (msgs.map (fun p => PumpResult.msg p.1 p.2) ++ PumpResult.raise :: rest) closed
      = msgs.map (fun p => ClientEvent.message p.1 p.2)
        ++ (if closed then [] else [ClientEvent.error]) ++ [ClientEvent.disconnect] := by
  induction msgs with
  | nil => rfl
  | cons m tl ih => simpa [recv_messages] using ih

/-- C3: whatever messages were pumped (and whatever would have followed
the terminating exception), the receive loop fires the disconnect
callback exactly once; the error callback fires, right before it, iff
the termination was not a deliberate `close()`. -/
theorem recv_loop_callbacks (msgs : List (Nat × Doc)) (rest : List PumpResult)
    (closed : Bool) :
    recv_messages (msgs.map (fun p => PumpResult.msg p.1 p.2) ++ PumpResult.raise :: rest) closed
        = msgs.map (fun p => ClientEvent.message p.1 p.2)
          ++ (if closed then [] else [ClientEvent.error]) ++ [ClientEvent.disconnect]
    ∧ (recv_messages (msgs.map (fun p => PumpResult.msg p.1 p.2) ++ PumpResult.raise :: rest)
        closed).count ClientEvent.disconnect = 1
    ∧ (ClientEvent.error
        ∈ recv_messages (msgs.map (fun p => PumpResult.msg p.1 p.2) ++ PumpResult.raise :: rest)
          closed
        ↔ closed = false) := by
  refine ⟨recv_messages_shape msgs rest closed, ?_, ?_⟩
  · rw [recv_messages_shape msgs rest closed]
    have hm : (msgs.map (fun p => ClientEvent.message p.1 p.2)).count ClientEvent.disconnect
        = 0 := by
      rw [List.count_eq_zero]
      intro h
      simp at h
    cases closed <;> simp [List.count_append, hm, List.count_cons]
  · rw [recv_messages_shape msgs rest closed]
    cases closed <;> simp

/-- Witness for `recv_loop_callbacks`: two pumped messages, then an
exception, on a client that was not deliberately closed. -/
theorem recv_loop_callbacks_witness :
    recv_messages ([((1 : Nat), ([] : Doc)), (2, [])].map (fun p => PumpResult.msg p.1 p.2)
        ++ PumpResult.raise :: []) false
      = [((1 : Nat), ([] : Doc)), (2, [])].map (fun p => ClientEvent.message p.1 p.2)
        ++ (if false then [] else [ClientEvent.error]) ++ [ClientEvent.disconnect]
    ∧ (recv_messages ([((1 : Nat), ([] : Doc)), (2, [])].map (fun p => PumpResult.msg p.1 p.2)
        ++ PumpResult.raise :: []) false).count ClientEvent.disconnect = 1
    ∧ (ClientEvent.error
        ∈ recv_messages ([((1 : Nat), ([] : Doc)), (2, [])].map (fun p => PumpResult.msg p.1 p.2)
          ++ PumpResult.raise :: []) false
        ↔ false = false) :=
  recv_loop_callbacks [(1, []), (2, [])] [] false

/-! ## Claim theorems: transaction ids -/

theorem countSends_connect (tl : List ClientOp) :
    countSends (ClientOp.connect :: tl) = countSends tl := rfl

theorem countSends_close (tl : List ClientOp) :
    countSends (ClientOp.close :: tl) = countSends tl := rfl

theorem countSends_send (tl : List ClientOp) :
    countSends (ClientOp.send :: tl) = countSends tl + 1 := rfl

theorem runClient_tidNext (ops : List ClientOp) :
    ∀ s : ClientState, (runClient s ops).1.tidNext = s.tidNext + countSends ops := by
  induction ops with
  | nil => intro s; simp [runClient, countSends]
  | cons op tl ih =>
    intro s
    match op with
    | ClientOp.connect =>
      have heq : (stepClient s ClientOp.connect).1.tidNext = s.tidNext := by
        by_cases h : s.connected <;> simp [stepClient, h]
      simp only [runClient, ih, heq, countSends_connect]
    | ClientOp.close =>
      simp only [runClient, ih, stepClient, countSends_close]
    | ClientOp.send =>
      simp only [runClient, ih, stepClient, countSends_send]
      omega

theorem runClient_sends_connected (ops : List ClientOp) :
    ∀ s : ClientState, sendsWhileConnected s ops = true →
      (runClient s ops).2 = List.range' s.tidNext (countSends ops) := by
  induction ops with
  | nil => intro s _; simp [runClient, countSends]
  | cons op tl ih =>
    intro s hc
    rw [sendsWhileConnected, Bool.and_eq_true] at hc
    match op with
    | ClientOp.connect =>
      have h2 := ih (stepClient s ClientOp.connect).1 hc.2
      have heq : (stepClient s ClientOp.connect).1.tidNext = s.tidNext := by
        by_cases h : s.connected <;> simp [stepClient, h]
      rw [heq] at h2
      simp only [runClient, h2, countSends_connect]
      rfl
    | ClientOp.close =>
      have h2 := ih (stepClient s ClientOp.close).1 hc.2
      simp only [stepClient] at h2
      simp [runClient, stepClient, h2, countSends_close]
    | ClientOp.send =>
      have hconn : s.connected = true := by
        have h1 := hc.1
        simp at h1
        exact h1
      have h2 := ih (stepClient s ClientOp.send).1 hc.2
      simp only [stepClient, hconn] at h2
      simp only [runClient, stepClient, hconn, if_true, countSends_send]
      rw [List.range'_succ]
      simp [h2]

/-- C4: over any sequence of client calls in which every `send` happens
while connected — including sequences with `close()`/`connect()`
reconnection cycles — the tids returned by the sends are exactly
`1, 2, 3, ...` (hence strictly increasing with no repeats), and the
counter's next value afterwards is `1 + #sends`: it is never reset. -/
theorem tid_sequence (ops : List ClientOp)
    (hc : sendsWhileConnected initClient ops = true) :
    (runClient initClient ops).2 = List.range' 1 (countSends ops)
    ∧ ((runClient initClient ops).2).Pairwise (· < ·)
    ∧ (runClient initClient ops).1.tidNext = 1 + countSends ops := by
  refine ⟨runClient_sends_connected ops initClient hc, ?_, runClient_tidNext ops initClient⟩
  rw [runClient_sends_connected ops initClient hc]
  exact List.pairwise_lt_range' 1 (countSends ops)

/-- Witness for `tid_sequence`: send twice, reconnect, send again — the
returned tids are `[1, 2, 3]`. -/
theorem tid_sequence_witness :
    sendsWhileConnected initClient
        [ClientOp.connect, ClientOp.send, ClientOp.send, ClientOp.close,
          ClientOp.connect, ClientOp.send] = true
    ∧ ((runClient initClient
          [ClientOp.connect, ClientOp.send, ClientOp.send, ClientOp.close,
            ClientOp.connect, ClientOp.send]).2
        = List.range' 1 (countSends
            [ClientOp.connect, ClientOp.send, ClientOp.send, ClientOp.close,
              ClientOp.connect, ClientOp.send])
      ∧ ((runClient initClient
          [ClientOp.connect, ClientOp.send, ClientOp.send, ClientOp.close,
            ClientOp.connect, ClientOp.send]).2).Pairwise (· < ·)
      ∧ (runClient initClient
          [ClientOp.connect, ClientOp.send, ClientOp.send, ClientOp.close,
            ClientOp.connect, ClientOp.send]).1.tidNext
        = 1 + countSends
            [ClientOp.connect, ClientOp.send, ClientOp.send, ClientOp.close,
              ClientOp.connect, ClientOp.send]) :=
  ⟨by decide, tid_sequence _ (by decide)⟩

/-! ## Claim theorems: dirty/flush batching -/

theorem flushWrapper_dirty (w : GrammarWrapper) (hd : w.dirty = true) :
    flushWrapper w = ({ w with state := recompute w, dirty := false }, [recompute w]) := by
  simp [flushWrapper, update_state, hd]

theorem flushWrapper_clean (w : GrammarWrapper) (hd : w.dirty = false) :
    flushWrapper w = ({ w with dirty := false }, []) := by
  simp [flushWrapper, update_state, hd]

/-- C5: a dirty grammar flushes exactly one set message (recomputed from
its current state) and comes out clean; a second flush with no
intervening mutation emits nothing; each mutation — rule activation or
deactivation, a list update, or an exclusivity change — emits nothing
itself and only re-marks the wrapper dirty, so the following flush point
emits exactly one set message recomputed from the post-mutation rule
flags and list contents, clearing the dirty flag again. -/
theorem dirty_flush_batching (w : GrammarWrapper) (hd : w.dirty = true) :
    (flushWrapper w).2 = [recompute w]
    ∧ (flushWrapper w).1.dirty = false
    ∧ (flushWrapper (flushWrapper w).1).2 = []
    ∧ (∀ rn b,
        (set_rule_active (flushWrapper w).1 rn b).dirty = true
        ∧ (flushWrapper (set_rule_active (flushWrapper w).1 rn b)).2
            = [recompute (set_rule_active (flushWrapper w).1 rn b)]
        ∧ (recompute (set_rule_active (flushWrapper w).1 rn b)).active_rules
            = activeRuleNames (set_rule_activity w.grammar rn b)
        ∧ (flushWrapper (set_rule_active (flushWrapper w).1 rn b)).1.dirty = false)
    ∧ (∀ ln items,
        (update_list (flushWrapper w).1 ln items).dirty = true
        ∧ (flushWrapper (update_list (flushWrapper w).1 ln items)).2
            = [recompute (update_list (flushWrapper w).1 ln items)]
        ∧ (recompute (update_list (flushWrapper w).1 ln items)).lists
            = listContents (set_list_items w.grammar ln items)
        ∧ (flushWrapper (update_list (flushWrapper w).1 ln items)).1.dirty = false)
    ∧ (∀ e, e ≠ (flushWrapper w).1.exclusive →
        (set_exclusiveness (flushWrapper w).1 e).dirty = true
        ∧ (flushWrapper (set_exclusiveness (flushWrapper w).1 e)).2
            = [recompute (set_exclusiveness (flushWrapper w).1 e)]
        ∧ (flushWrapper (set_exclusiveness (flushWrapper w).1 e)).1.dirty = false) := by
  rw [flushWrapper_dirty w hd]
  refine ⟨rfl, rfl, ?_, ?_, ?_, ?_⟩
  · rw [flushWrapper_clean _ rfl]
  · intro rn b
    refine ⟨rfl, ?_, ?_, ?_⟩
    · rw [flushWrapper_dirty _ rfl]
    · simp [recompute, set_rule_active]
    · rw [flushWrapper_dirty _ rfl]
  · intro ln items
    refine ⟨rfl, ?_, ?_, ?_⟩
    · rw [flushWrapper_dirty _ rfl]
    · simp [recompute, update_list]
    · rw [flushWrapper_dirty _ rfl]
  · intro e he
    have hne : ({ w with state := recompute w, dirty := false } :
        GrammarWrapper).exclusive ≠ e := fun h => he h.symm
    have hbne : (({ w with state := recompute w, dirty := false } :
        GrammarWrapper).exclusive != e) = true := by
      simpa using hne
    have hset : set_exclusiveness ({ w with state := recompute w, dirty := false }) e
        = { w with state := recompute w, exclusive := e, dirty := true } := by
      simp [set_exclusiveness, hbne]
    rw [hset]
    refine ⟨rfl, ?_, ?_⟩
    · rw [flushWrapper_dirty _ rfl]
    · rw [flushWrapper_dirty _ rfl]

/-- Witness for `dirty_flush_batching` on a concrete freshly loaded
grammar wrapper. -/
theorem dirty_flush_batching_witness :
    sampleWrapper.dirty = true
    ∧ ((flushWrapper sampleWrapper).2 = [recompute sampleWrapper]
      ∧ (flushWrapper sampleWrapper).1.dirty = false
      ∧ (flushWrapper (flushWrapper sampleWrapper).1).2 = []
      ∧ (∀ rn b,
          (set_rule_active (flushWrapper sampleWrapper).1 rn b).dirty = true
          ∧ (flushWrapper (set_rule_active (flushWrapper sampleWrapper).1 rn b)).2
              = [recompute (set_rule_active (flushWrapper sampleWrapper).1 rn b)]
          ∧ (recompute (set_rule_active (flushWrapper sampleWrapper).1 rn b)).active_rules
              = activeRuleNames (set_rule_activity sampleWrapper.grammar rn b)
          ∧ (flushWrapper (set_rule_active (flushWrapper sampleWrapper).1 rn b)).1.dirty
              = false)
      ∧ (∀ ln items,
          (update_list (flushWrapper sampleWrapper).1 ln items).dirty = true
          ∧ (flushWrapper (update_list (flushWrapper sampleWrapper).1 ln items)).2
              = [recompute (update_list (flushWrapper sampleWrapper).1 ln items)]
          ∧ (recompute (update_list (flushWrapper sampleWrapper).1 ln items)).lists
              = listContents (set_list_items sampleWrapper.grammar ln items)
          ∧ (flushWrapper (update_list (flushWrapper sampleWrapper).1 ln items)).1.dirty
              = false)
      ∧ (∀ e, e ≠ (flushWrapper sampleWrapper).1.exclusive →
          (set_exclusiveness (flushWrapper sampleWrapper).1 e).dirty = true
          ∧ (flushWrapper (set_exclusiveness (flushWrapper sampleWrapper).1 e)).2
              = [recompute (set_exclusiveness (flushWrapper sampleWrapper).1 e)]
          ∧ (flushWrapper (set_exclusiveness (flushWrapper sampleWrapper).1 e)).1.dirty
              = false)) :=
  ⟨rfl, dirty_flush_batching sampleWrapper rfl⟩

/-! ## Claim theorems: grammar-set failure retry -/

theorem markDirty_found (ws : List GrammarWrapper) (n : String) (w : GrammarWrapper)
    (hw : get_grammar_wrapper ws n = some w) :
    get_grammar_wrapper (markDirty ws n) n = some { w with dirty := true }
    ∧ { w with dirty := true } ∈ markDirty ws n := by
  induction ws with
  | nil => simp [get_grammar_wrapper] at hw
  | cons x tl ih =>
    by_cases h : (x.grammar.name == n) = true
    · simp only [get_grammar_wrapper, List.find?, h] at hw
      have hx : x = w := by simpa using hw
      subst hx
      rw [markDirty, if_pos h]
      constructor
      · simp [get_grammar_wrapper, List.find?, h]
      · simp
    · have hf : (x.grammar.name == n) = false := by simpa using h
      simp only [get_grammar_wrapper, List.find?, hf] at hw
      have ih2 := ih hw
      rw [markDirty, if_neg h]
      constructor
      · simp only [get_grammar_wrapper, List.find?, hf]
        exact ih2.1
      · exact List.mem_cons_of_mem x ih2.2

theorem flushAll_mem_of_dirty (ws : List GrammarWrapper) (w : GrammarWrapper)
    (hm : w ∈ ws) (hd : w.dirty = true) :
    recompute w ∈ (flushAll ws).2 := by
  induction ws with
  | nil => simp at hm
  | cons x tl ih =>
    rcases List.mem_cons.mp hm with h | h
    · subst h
      simp [flushAll, flushWrapper_dirty w hd]
    · simp only [flushAll, List.mem_append]
      exact Or.inr (ih h)

/-- C6: when a pushed grammar-set result reports failure for grammar
`name`, the handler — keyed on the grammar name and ignoring the frame's
tid — re-marks that grammar's wrapper dirty and returns normally, so the
next flush pass emits a set message for that grammar again even with no
further mutation. -/
theorem gset_failure_retry (ws : List GrammarWrapper) (tid tid2 : Nat) (name : String)
    (w : GrammarWrapper) (hw : get_grammar_wrapper ws name = some w)
    (hn : w.state.name = w.grammar.name) :
    handle_gset ws tid name false = markDirty ws name
    ∧ handle_gset ws tid2 name false = handle_gset ws tid name false
    ∧ handle_gset ws tid name true = ws
    ∧ get_grammar_wrapper (handle_gset ws tid name false) name = some { w with dirty := true }
    ∧ ∃ m ∈ (flushAll (handle_gset ws tid name false)).2, m.name = name := by
  have hfound := markDirty_found ws name w hw
  have hname : w.grammar.name = name := by
    have := List.find?_some hw
    simpa using this
  refine ⟨rfl, rfl, rfl, hfound.1, ?_⟩
  refine ⟨recompute { w with dirty := true },
    flushAll_mem_of_dirty _ _ hfound.2 rfl, ?_⟩
  simp [recompute]
  rw [hn, hname]

/-- Witness for `gset_failure_retry` on a clean concrete wrapper. -/
theorem gset_failure_retry_witness :
    (get_grammar_wrapper [(flushWrapper sampleWrapper).1] "g"
        = some (flushWrapper sampleWrapper).1
      ∧ ((flushWrapper sampleWrapper).1).state.name
        = ((flushWrapper sampleWrapper).1).grammar.name)
    ∧ (handle_gset [(flushWrapper sampleWrapper).1] 7 "g" false
        = markDirty [(flushWrapper sampleWrapper).1] "g"
      ∧ handle_gset [(flushWrapper sampleWrapper).1] 8 "g" false
        = handle_gset [(flushWrapper sampleWrapper).1] 7 "g" false
      ∧ handle_gset [(flushWrapper sampleWrapper).1] 7 "g" true
        = [(flushWrapper sampleWrapper).1]
      ∧ get_grammar_wrapper (handle_gset [(flushWrapper sampleWrapper).1] 7 "g" false) "g"
        = some { (flushWrapper sampleWrapper).1 with dirty := true }
      ∧ ∃ m ∈ (flushAll (handle_gset [(flushWrapper sampleWrapper).1] 7 "g" false)).2,
          m.name = "g") :=
  ⟨⟨by decide, by decide⟩,
    gset_failure_retry [(flushWrapper sampleWrapper).1] 7 8 "g"
      (flushWrapper sampleWrapper).1 (by decide) (by decide)⟩

/-! ## Claim theorems: the paused topic -/

theorem flushAll_msgs (ws : List GrammarWrapper) :
    (flushAll ws).2 = (ws.filter (fun w => w.dirty)).map recompute := by
  induction ws with
  | nil => rfl
  | cons x tl ih =>
    by_cases h : x.dirty = true
    · simp [flushAll, flushWrapper_dirty x h, List.filter_cons, h, ih]
    · have h2 : x.dirty = false := by simpa using h
      simp [flushAll, flushWrapper_clean x h2, List.filter_cons, h2, ih]

/-- C7: handling a paused document with a token queues, in order, one
recomputed set message for each grammar left dirty after every grammar's
react-to-focus hook has run, followed by exactly one acknowledge-pause
message carrying that same token, which is the last message queued. -/
theorem paused_flush_then_ack (hook : GrammarWrapper → GrammarWrapper)
    (ws : List GrammarWrapper) (token : String) :
    (handle_paused hook ws token).2
        = ((((ws.map hook).filter (fun w => w.dirty)).map recompute).map Outbound.set)
          ++ [Outbound.unpause token]
    ∧ ((handle_paused hook ws token).2).count (Outbound.unpause token) = 1
    ∧ ((handle_paused hook ws token).2).getLast? = some (Outbound.unpause token) := by
  have h1 : (handle_paused hook ws token).2
      = ((update_all_grammars hook ws).2).map Outbound.set ++ [Outbound.unpause token] := rfl
  have h2 : (update_all_grammars hook ws).2
      = ((ws.map hook).filter (fun w => w.dirty)).map recompute := flushAll_msgs _
  refine ⟨by rw [h1, h2], ?_, ?_⟩
  · rw [h1, List.count_append]
    have hz : (((update_all_grammars hook ws).2).map Outbound.set).count
        (Outbound.unpause token) = 0 := by
      rw [List.count_eq_zero]
      intro hmem
      simp at hmem
    rw [hz]
    simp
  · rw [h1, List.getLast?_concat]

/-! ## Claim theorems: format_message's shallow copy -/

theorem dictGet_dictSet_self (d : PyDict) (k : String) (v : PyVal) :
    dictGet (dictSet d k v) k = some v := by
  induction d with
  | nil => simp [dictGet, dictSet, List.find?]
  | cons p tl ih =>
    by_cases h : (p.1 == k) = true
    · simp [dictSet, h, dictGet, List.find?]
    · have hf : (p.1 == k) = false := by simpa using h
      simp only [dictSet, hf, Bool.false_eq_true, if_false]
      simp only [dictGet, List.find?, hf]
      exact ih

theorem dictGet_dictSet_other (d : PyDict) (k k2 : String) (v : PyVal) (hne : k2 ≠ k) :
    dictGet (dictSet d k v) k2 = dictGet d k2 := by
  have hkk : (k == k2) = false := by
    simp only [beq_eq_false_iff_ne, ne_eq]
    exact fun hcontra => hne hcontra.symm
  induction d with
  | nil => simp [dictGet, dictSet, List.find?, hkk]
  | cons p tl ih =>
    by_cases h : (p.1 == k) = true
    · have hp1 : p.1 = k := by simpa using h
      have hp : (p.1 == k2) = false := by rw [hp1]; exact hkk
      simp [dictSet, h, dictGet, List.find?, hkk, hp]
    · have hf : (p.1 == k) = false := by simpa using h
      by_cases h2 : (p.1 == k2) = true
      · simp [dictSet, hf, dictGet, List.find?, h2]
      · have hf2 : (p.1 == k2) = false := by simpa using h2
        simp only [dictSet, hf, Bool.false_eq_true, if_false]
        simp only [dictGet, List.find?, hf2]
        exact ih

theorem getD_set_self (h : Heap) (r : Nat) (d : PyDict) (hr : r < h.length) :
    (h.set r d).getD r [] = d := by
  simp [List.getD, List.getElem?_set_self hr]

theorem getD_set_other (h : Heap) (r r2 : Nat) (d : PyDict) (hne : r ≠ r2) :
    (h.set r d).getD r2 [] = h.getD r2 [] := by
  simp [List.getD, List.getElem?_set_ne hne]

/-- C10: `format_message` is not a pure read of its input.  When the
message's `"cmd"` entry references a nested dictionary whose own `"cmd"`
is `"g.set"`, the `"data"` and `"lists"` entries of that nested
dictionary are overwritten in the heap — through the shallow copy's
shared reference, so the caller's nested document is mutated — while the
top-level `"wav"` entry is replaced only in the returned copy and the
original top-level dictionary is left untouched. -/
theorem format_message_frame_effect (h : Heap) (rm r : Nat) (wv : PyVal)
    (hr : r < h.length) (hrm : rm ≠ r)
    (hcmd : dictGet (h.getD rm []) "cmd" = some (PyVal.ref r))
    (hg : dictGet (h.getD r []) "cmd" = some (PyVal.str "g.set"))
    (hwav : dictGet (h.getD rm []) "wav" = some wv) :
    ∃ h2 out, format_message h rm = Except.ok (h2, out)
      ∧ dictGet (h2.getD r []) "data" = some (PyVal.str "...")
      ∧ dictGet (h2.getD r []) "lists" = some (PyVal.str "...")
      ∧ dictGet (h2.getD r []) "cmd" = some (PyVal.str "g.set")
      ∧ dictGet out "cmd" = some (PyVal.ref r)
      ∧ dictGet out "wav" = some (PyVal.str "...")
      ∧ h2.getD rm [] = h.getD rm [] := by
  have hfmt : format_message h rm = Except.ok
      (h.set r
        (dictSet (dictSet (h.getD r []) "data" (PyVal.str "...")) "lists" (PyVal.str "...")),
       dictSet (h.getD rm []) "wav" (PyVal.str "...")) := by
    have hcmd2 := hcmd
    have hg2 := hg
    have hwav2 := hwav
    simp only [List.getD, List.get?_eq_getElem?] at hcmd2 hg2 hwav2
    simp [format_message, List.getD, hcmd2, hg2, hwav2]
  refine ⟨_, _, hfmt, ?_, ?_, ?_, ?_, ?_, ?_⟩
  · rw [getD_set_self h r _ hr,
      dictGet_dictSet_other _ "lists" "data" _ (by decide),
      dictGet_dictSet_self]
  · rw [getD_set_self h r _ hr, dictGet_dictSet_self]
  · rw [getD_set_self h r _ hr,
      dictGet_dictSet_other _ "lists" "cmd" _ (by decide),
      dictGet_dictSet_other _ "data" "cmd" _ (by decide)]
    exact hg
  · rw [dictGet_dictSet_other _ "wav" "cmd" _ (by decide)]
    exact hcmd
  · rw [dictGet_dictSet_self]
  · exact getD_set_other h r rm _ fun hcontra => hrm hcontra.symm

/-- Witness for `format_message_frame_effect` on a two-dictionary heap:
the message at address 0, its nested `g.set` command at address 1. -/
theorem format_message_frame_effect_witness :
    (1 < ([[("cmd", PyVal.ref 1), ("wav", PyVal.bytes [9, 9])],
        [("cmd", PyVal.str "g.set"), ("data", PyVal.bytes [1]),
          ("lists", PyVal.str "x")]] : Heap).length
      ∧ (0 : Nat) ≠ 1
      ∧ dictGet (([[("cmd", PyVal.ref 1), ("wav", PyVal.bytes [9, 9])],
          [("cmd", PyVal.str "g.set"), ("data", PyVal.bytes [1]),
            ("lists", PyVal.str "x")]] : Heap).getD 0 []) "cmd" = some (PyVal.ref 1)
      ∧ dictGet (([[("cmd", PyVal.ref 1), ("wav", PyVal.bytes [9, 9])],
          [("cmd", PyVal.str "g.set"), ("data", PyVal.bytes [1]),
            ("lists", PyVal.str "x")]] : Heap).getD 1 []) "cmd" = some (PyVal.str "g.set")
      ∧ dictGet (([[("cmd", PyVal.ref 1), ("wav", PyVal.bytes [9, 9])],
          [("cmd", PyVal.str "g.set"), ("data", PyVal.bytes [1]),
            ("lists", PyVal.str "x")]] : Heap).getD 0 []) "wav" = some (PyVal.bytes [9, 9]))
    ∧ ∃ h2 out,
        format_message [[("cmd", PyVal.ref 1), ("wav", PyVal.bytes [9, 9])],
          [("cmd", PyVal.str "g.set"), ("data", PyVal.bytes [1]),
            ("lists", PyVal.str "x")]] 0 = Except.ok (h2, out)
        ∧ dictGet (h2.getD 1 []) "data" = some (PyVal.str "...")
        ∧ dictGet (h2.getD 1 []) "lists" = some (PyVal.str "...")
        ∧ dictGet (h2.getD 1 []) "cmd" = some (PyVal.str "g.set")
        ∧ dictGet out "cmd" = some (PyVal.ref 1)
        ∧ dictGet out "wav" = some (PyVal.str "...")
        ∧ h2.getD 0 []
          = ([[("cmd", PyVal.ref 1), ("wav", PyVal.bytes [9, 9])],
              [("cmd", PyVal.str "g.set"), ("data", PyVal.bytes [1]),
                ("lists", PyVal.str "x")]] : Heap).getD 0 [] :=
  ⟨⟨by decide, by decide, by decide, by decide, by decide⟩,
    format_message_frame_effect _ 0 1 (PyVal.bytes [9, 9])
      (by decide) (by decide) (by decide) (by decide) (by decide)⟩

end Draconity
